import Mathlib

/-!
Shallow embedding of the CSV user combiner core pipeline
(`processFiles` and `findDuplicates` in `src/App.jsx`), together with
proofs of the specification claims about it.

Scalar values follow the CSV parser's dynamic typing (string, number,
boolean, null); JavaScript string coercion, truthiness, `trim` and
`toLowerCase` are modelled explicitly.
-/

namespace CsvUserCombiner

/-- A dynamically typed scalar cell value, as produced by the parser. -/
inductive Value where
  | str (s : String)
  | num (n : Int)
  | bool (b : Bool)
  | null
deriving DecidableEq, Repr

/-- A parsed row: an object modelled as its ordered key/value list. -/
abbrev Row := List (String × Value)

/-- JavaScript property access `row[k]` (exact key, `undefined` as `none`). -/
def jsGet (row : Row) (k : String) : Option Value :=
  (row.find? (fun p => p.1 == k)).map (fun p => p.2)

/-- JavaScript `String(v)` for a defined value. -/
def jsStringV : Value → String
  | .str s => s
  | .num n => toString n
  | .bool b => if b then "true" else "false"
  | .null => "null"

/-- JavaScript `String(v)`, including `String(undefined) = "undefined"`. -/
def jsString : Option Value → String
  | none => "undefined"
  | some v => jsStringV v

/-- JavaScript truthiness of a defined value. -/
def jsTruthyV : Value → Bool
  | .str s => s != ""
  | .num n => n != 0
  | .bool b => b
  | .null => false

/-- JavaScript truthiness, with `undefined` falsy. -/
def jsTruthy : Option Value → Bool
  | none => false
  | some v => jsTruthyV v

/-- Whitespace as removed by `String.prototype.trim` (ASCII part). -/
def isJsWS (c : Char) : Bool :=
  c.toNat == 32 || c.toNat == 9 || c.toNat == 10 || c.toNat == 13 ||
    c.toNat == 11 || c.toNat == 12

/-- JavaScript `s.toLowerCase()` (per-character ASCII lowering). -/
def jsToLower (s : String) : String := ⟨s.data.map Char.toLower⟩

/-- Remove leading and trailing whitespace from a character list. -/
def trimChars (l : List Char) : List Char :=
  ((l.dropWhile isJsWS).reverse.dropWhile isJsWS).reverse

/-- JavaScript `s.trim()`. -/
def jsTrim (s : String) : String := ⟨trimChars s.data⟩

/-! ## Record extraction and filtering (`processFiles`) -/

/-- The fixed target field set (`requiredFields` in the source). -/
def requiredFields : List String := ["Type", "Display Name", "Name", "Domain"]

/-- One parsed input table: file name, data rows, and the header column
list (`result.meta.fields`). -/
structure ParsedTable where
  name : String
  rows : List Row
  columns : List String
deriving DecidableEq

/-- `Object.keys(result.data.length > 0 ? result.data[0] : {})`. -/
def firstRowKeys (rows : List Row) : List String :=
  match rows with
  | [] => []
  | r :: _ => r.map Prod.fst

/-- The discriminator column lookup: first key of the first row whose
lowercase form is `"type"`. -/
def findTypeField (rows : List Row) : Option String :=
  (firstRowKeys rows).find? (fun k => jsToLower k == "type")

/-- The row filter predicate: keep all rows when no type field was found,
otherwise keep rows whose coerced, lowercased value is `"user"`. -/
def rowKeep (tf : Option String) (row : Row) : Bool :=
  match tf with
  | none => true
  | some t => jsToLower (jsString (jsGet row t)) == "user"

/-- The rows of a table retained by the type filter. -/
def filteredRows (t : ParsedTable) : List Row :=
  t.rows.filter (rowKeep (findTypeField t.rows))

/-- Case-insensitive field extraction: the value of the first column whose
name matches the target field up to case, else the empty string. -/
def extractValue (row : Row) (f : String) : Value :=
  match row.find? (fun p => jsToLower p.1 == jsToLower f) with
  | some p => p.2
  | none => .str ""

/-- The extracted target-field portion of a normalized record. -/
def extractFields (row : Row) : Row :=
  requiredFields.map (fun f => (f, extractValue row f))

/-- A full normalized record: target fields plus the two provenance
attributes `__source_file` and `__file_index`. -/
def extractRecord (fileName : String) (fileIdx : Nat) (row : Row) : Row :=
  extractFields row ++
    [("__source_file", .str fileName), ("__file_index", .num fileIdx)]

/-- `availableFields`: target fields for which some key of the first row
matches case-insensitively. -/
def availableFieldsOf (t : ParsedTable) : List String :=
  requiredFields.filter (fun f =>
    (firstRowKeys t.rows).any (fun k => jsToLower k == jsToLower f))

/-- Per-file statistics pushed onto `fileResults`. -/
structure FileSummary where
  fileName : String
  totalRowCount : Nat
  userRowCount : Nat
  hasTypeField : Bool
  availableFields : List String
  missingFields : List String
  columns : List String
deriving DecidableEq

/-- Processing of one table at batch position `i`: the extracted records
and the table's `FileSummary`. -/
def processTable (i : Nat) (t : ParsedTable) : List Row × FileSummary :=
  let recs := (filteredRows t).map (extractRecord t.name i)
  let avail := availableFieldsOf t
  (recs,
   { fileName := t.name
     totalRowCount := t.rows.length
     userRowCount := recs.length
     hasTypeField := (findTypeField t.rows).isSome
     availableFields := avail
     missingFields := requiredFields.filter (fun f => !(avail.contains f))
     columns := t.columns })

/-! ## Duplicate detection (`findDuplicates`) -/

/-- A map entry member: the stored record plus its `__original_index`. -/
structure Member where
  record : Row
  idx : Nat
deriving DecidableEq

/-- An emitted duplicate group (the constant `strategy: 'Name'` field is
omitted). -/
structure DupGroup where
  duplicateValue : String
  records : List Member
  originalName : Option Value
deriving DecidableEq

/-- The grouping guard: `nameValue && String(nameValue).trim() !== ''`. -/
def eligible (r : Row) : Bool :=
  jsTruthy (jsGet r "Name") && (jsTrim (jsString (jsGet r "Name")) != "")

/-- The normalized key: `String(nameValue).toLowerCase().trim()`. -/
def recKey (r : Row) : String :=
  jsTrim (jsToLower (jsString (jsGet r "Name")))

/-- The insertion-ordered `Map` from normalized key to member list. -/
abbrev NameMap := List (String × List Member)

/-- `Map.get(k).push(mem)`, creating the key at the end on first use. -/
def insertMember (m : NameMap) (k : String) (mem : Member) : NameMap :=
  match m with
  | [] => [(k, [mem])]
  | (k', ms) :: rest =>
    if k' = k then (k', ms ++ [mem]) :: rest
    else (k', ms) :: insertMember rest k mem

/-- The `data.forEach((record, index) => ...)` map-building loop, started
at index `i` with accumulated map `m`. -/
def buildFrom (m : NameMap) (i : Nat) : List Row → NameMap
  | [] => m
  | r :: rest =>
    buildFrom (if eligible r then insertMember m (recKey r) ⟨r, i⟩ else m)
      (i + 1) rest

/-- The full name map of an aggregated record list. -/
def buildNameMap (data : List Row) : NameMap := buildFrom [] 0 data

/-- `findDuplicates`: empty when no record has a truthy `Name`, otherwise
the map entries with more than one member, in insertion order. -/
def findDuplicates (data : List Row) : List DupGroup :=
  if data.any (fun r => jsTruthy (jsGet r "Name")) then
    (buildNameMap data).filterMap (fun kv =>
      if 1 < kv.2.length then
        some { duplicateValue := kv.1
               records := kv.2
               originalName := kv.2.head?.bind (fun mem => jsGet mem.record "Name") }
      else none)
  else []

/-! ## Batch aggregation (`processFiles`, summary assembly) -/

/-- The finalized run summary (`results` in the source). -/
structure RunSummary where
  totalRecords : Nat
  totalFiles : Nat
  fileDetails : List FileSummary
  hasNameField : Bool
  duplicateCount : Nat
  duplicateGroups : Nat
  totalOriginalRecords : Nat
deriving DecidableEq

/-- Concatenated records of the tables from batch position `i` on. -/
def aggFrom (i : Nat) : List ParsedTable → List Row
  | [] => []
  | t :: rest => (processTable i t).1 ++ aggFrom (i + 1) rest

/-- File summaries of the tables from batch position `i` on. -/
def summariesFrom (i : Nat) : List ParsedTable → List FileSummary
  | [] => []
  | t :: rest => (processTable i t).2 :: summariesFrom (i + 1) rest

/-- `allUsers.length > 0 && allUsers.some(record => record['Name'])`. -/
def hasNameFieldOf (allUsers : List Row) : Bool :=
  decide (0 < allUsers.length) &&
    allUsers.any (fun r => jsTruthy (jsGet r "Name"))

/-- The full output of one processing run. -/
structure BatchResult where
  records : List Row
  duplicateGroups : List DupGroup
  summary : RunSummary

/-- The whole pipeline for one batch of parsed tables. -/
def processBatch (tables : List ParsedTable) : BatchResult :=
  let allUsers := aggFrom 0 tables
  let fileResults := summariesFrom 0 tables
  let groups := findDuplicates allUsers
  { records := allUsers
    duplicateGroups := groups
    summary :=
      { totalRecords := allUsers.length
        totalFiles := tables.length
        fileDetails := fileResults
        hasNameField := hasNameFieldOf allUsers
        duplicateCount := groups.foldl (fun s g => s + g.records.length) 0
        duplicateGroups := groups.length
        totalOriginalRecords :=
          fileResults.foldl (fun s f => s + f.totalRowCount) 0 } }

/-! ## Specification-side reference definitions -/

/-- The members a key collects, read off directly from the record list:
eligible records whose normalized key is `k`, in order, with their
indices (counted from `i`). -/
def canonicalFrom (i : Nat) : List Row → String → List Member
  | [], _ => []
  | r :: rest, k =>
    (if eligible r && (recKey r == k) then [⟨r, i⟩] else []) ++
      canonicalFrom (i + 1) rest k

/-- The canonical member list of key `k` over the whole record list. -/
def canonicalMembers (data : List Row) (k : String) : List Member :=
  canonicalFrom 0 data k

/-- First-occurrence deduplication, skipping keys already in `seen`. -/
def dedupFirst (seen : List String) : List String → List String
  | [] => []
  | k :: ks =>
    if k ∈ seen then dedupFirst seen ks
    else k :: dedupFirst (seen ++ [k]) ks

/-- The normalized keys of the eligible records in first-seen order. -/
def firstSeenKeys (data : List Row) : List String :=
  dedupFirst [] ((data.filter eligible).map recKey)

/-- Lookup in the association-list model of the `Map`. -/
def assocGet : NameMap → String → List Member
  | [], _ => []
  | (k', ms) :: rest, k => if k' = k then ms else assocGet rest k

/-! ## String-level lemmas -/

theorem toNat_ofNat_of_lt {n : Nat} (h : n < 0xd800) : (Char.ofNat n).toNat = n := by
  rw [Char.ofNat, dif_pos (Or.inl h)]
  rfl

theorem isJsWS_toLower (c : Char) : isJsWS c.toLower = isJsWS c := by
  have hdef : c.toLower =
      if c.toNat ≥ 65 ∧ c.toNat ≤ 90 then Char.ofNat (c.toNat + 32) else c := rfl
  rw [hdef]
  by_cases h : c.toNat ≥ 65 ∧ c.toNat ≤ 90
  · rw [if_pos h]
    have h2 : (Char.ofNat (c.toNat + 32)).toNat = c.toNat + 32 :=
      toNat_ofNat_of_lt (by omega)
    have l1 : isJsWS (Char.ofNat (c.toNat + 32)) = false := by
      simp [isJsWS, h2]
      omega
    have l2 : isJsWS c = false := by
      simp [isJsWS]
      omega
    rw [l1, l2]
  · rw [if_neg h]

theorem trimChars_map_toLower (l : List Char) :
    trimChars (l.map Char.toLower) = (trimChars l).map Char.toLower := by
  unfold trimChars
  have hp : (isJsWS ∘ Char.toLower) = isJsWS := by
    funext c
    exact isJsWS_toLower c
  rw [List.dropWhile_map, hp, ← List.map_reverse, List.dropWhile_map, hp,
    ← List.map_reverse]

theorem jsTrim_jsToLower (s : String) :
    jsTrim (jsToLower s) = jsToLower (jsTrim s) := by
  unfold jsTrim jsToLower
  exact congrArg String.mk (trimChars_map_toLower s.data)

/-! ## Record extraction lemmas -/

theorem extractValue_nil (f : String) : extractValue [] f = .str "" := rfl

theorem extractValue_cons (k : String) (v : Value) (rest : Row) (f : String) :
    extractValue ((k, v) :: rest) f =
      if jsToLower k == jsToLower f then v else extractValue rest f := by
  by_cases h : (jsToLower k == jsToLower f) = true
  · simp [extractValue, List.find?_cons, h]
  · rw [Bool.not_eq_true] at h
    simp [extractValue, List.find?_cons, h]

theorem extractFields_eq (row : Row) :
    extractFields row =
      [("Type", extractValue row "Type"),
       ("Display Name", extractValue row "Display Name"),
       ("Name", extractValue row "Name"),
       ("Domain", extractValue row "Domain")] := rfl

/-- C9: record extraction is idempotent: re-extracting an already-extracted
record (treated as a raw row, provenance attributes included) with the same
target field set yields the same value for every target field. -/
theorem c9_extraction_idempotent (fileName : String) (fileIdx : Nat) (row : Row) :
    extractFields (extractRecord fileName fileIdx row) = extractFields row := by
  have hrec : extractRecord fileName fileIdx row =
      [("Type", extractValue row "Type"),
       ("Display Name", extractValue row "Display Name"),
       ("Name", extractValue row "Name"),
       ("Domain", extractValue row "Domain"),
       ("__source_file", .str fileName), ("__file_index", .num fileIdx)] := rfl
  have t1 : (jsToLower "Type" == jsToLower "Type") = true := by decide
  have t2 : (jsToLower "Display Name" == jsToLower "Display Name") = true := by decide
  have t3 : (jsToLower "Name" == jsToLower "Name") = true := by decide
  have t4 : (jsToLower "Domain" == jsToLower "Domain") = true := by decide
  have f12 : (jsToLower "Type" == jsToLower "Display Name") = false := by decide
  have f13 : (jsToLower "Type" == jsToLower "Name") = false := by decide
  have f14 : (jsToLower "Type" == jsToLower "Domain") = false := by decide
  have f23 : (jsToLower "Display Name" == jsToLower "Name") = false := by decide
  have f24 : (jsToLower "Display Name" == jsToLower "Domain") = false := by decide
  have f34 : (jsToLower "Name" == jsToLower "Domain") = false := by decide
  rw [hrec, extractFields_eq row, extractFields_eq]
  simp [extractValue_cons, t1, t2, t3, t4, f12, f13, f14, f23, f24, f34]

/-- C5: every extracted record holds exactly the four target fields plus the
two provenance attributes; each target field carries the value of the first
raw column whose name matches case-insensitively, or the empty string when
no column matches. -/
theorem c5_extracted_record_shape (fileName : String) (fileIdx : Nat) (row : Row) :
    (extractRecord fileName fileIdx row).map Prod.fst =
      requiredFields ++ ["__source_file", "__file_index"] ∧
    ∀ f ∈ requiredFields,
      jsGet (extractRecord fileName fileIdx row) f = some (extractValue row f) ∧
      ((∃ pre p post, row = pre ++ p :: post ∧ jsToLower p.1 = jsToLower f ∧
          (∀ q ∈ pre, jsToLower q.1 ≠ jsToLower f) ∧ extractValue row f = p.2) ∨
        ((∀ q ∈ row, jsToLower q.1 ≠ jsToLower f) ∧ extractValue row f = .str "")) := by
  constructor
  · rfl
  · intro f hf
    constructor
    · simp only [requiredFields, List.mem_cons, List.not_mem_nil, or_false] at hf
      rcases hf with rfl | rfl | rfl | rfl <;> rfl
    · cases hfind : row.find? (fun p => jsToLower p.1 == jsToLower f) with
      | none =>
        right
        refine ⟨fun q hq => ?_, ?_⟩
        · have := List.find?_eq_none.mp hfind q hq
          simpa using this
        · unfold extractValue
          rw [hfind]
      | some p =>
        left
        obtain ⟨hp, pre, post, heq, hpre⟩ := List.find?_eq_some.mp hfind
        refine ⟨pre, p, post, heq, by simpa using hp,
          fun q hq => by simpa using hpre q hq, ?_⟩
        unfold extractValue
        rw [hfind]

/-- C3: in a table whose discriminator column is found, the retained rows are
exactly the rows whose discriminator value, coerced to string and lowercased,
equals the literal `"user"`, in their original relative order. -/
theorem c3_type_filter (t : ParsedTable) (tf : String)
    (h : findTypeField t.rows = some tf) :
    filteredRows t =
      t.rows.filter (fun row => jsToLower (jsString (jsGet row tf)) == "user") ∧
    List.Sublist (filteredRows t) t.rows ∧
    ∀ row, row ∈ filteredRows t ↔
      (row ∈ t.rows ∧ jsToLower (jsString (jsGet row tf)) = "user") := by
  have h1 : filteredRows t =
      t.rows.filter (fun row => jsToLower (jsString (jsGet row tf)) == "user") := by
    unfold filteredRows
    rw [h]
    exact List.filter_congr (fun row _ => rfl)
  refine ⟨h1, ?_, ?_⟩
  · rw [h1]
    exact List.filter_sublist _
  · intro row
    rw [h1, List.mem_filter]
    simp

/-- C4: a table in which no column matches the discriminator name retains
every row, reports equal retained and total row counts, and is flagged
`hasTypeField = false` (assuming the parser draws row keys from the
declared column list). -/
theorem c4_no_type_column (i : Nat) (t : ParsedTable)
    (hcol : ∀ c ∈ t.columns, jsToLower c ≠ "type")
    (hwf : ∀ k ∈ firstRowKeys t.rows, k ∈ t.columns) :
    filteredRows t = t.rows ∧
    (processTable i t).2.userRowCount = (processTable i t).2.totalRowCount ∧
    (processTable i t).2.hasTypeField = false := by
  have htf : findTypeField t.rows = none := by
    unfold findTypeField
    rw [List.find?_eq_none]
    intro k hk
    simpa using hcol k (hwf k hk)
  have hfil : filteredRows t = t.rows := by
    unfold filteredRows
    rw [htf]
    rw [List.filter_eq_self]
    intro row _
    rfl
  refine ⟨hfil, ?_, ?_⟩
  · show ((filteredRows t).map (extractRecord t.name i)).length = t.rows.length
    rw [List.length_map, hfil]
  · show (findTypeField t.rows).isSome = false
    rw [htf]
    rfl

/-- C6 (counterexample): for a header-only table whose declared column list
contains `"Name"` but which has no data rows, the computed found fields are
empty, contradicting the claim that found fields are determined by the raw
column list. -/
theorem c6_counterexample :
    ¬ ((processTable 0 ⟨"empty.csv", [], ["Name"]⟩).2.availableFields =
        requiredFields.filter (fun f =>
          (⟨"empty.csv", [], ["Name"]⟩ : ParsedTable).columns.any
            (fun c => jsToLower c == jsToLower f))) := by
  decide

/-- C6 (amended): a table's found fields are exactly the target fields for
which some key of the table's first data row (none when the table has no
rows) matches case-insensitively, and the missing fields are exactly the
complement of the found fields within the target field set. -/
theorem c6_found_fields_from_first_row (i : Nat) (t : ParsedTable) :
    (∀ f, f ∈ (processTable i t).2.availableFields ↔
       (f ∈ requiredFields ∧ ∃ k ∈ firstRowKeys t.rows, jsToLower k = jsToLower f)) ∧
    (∀ f, f ∈ (processTable i t).2.missingFields ↔
       (f ∈ requiredFields ∧ f ∉ (processTable i t).2.availableFields)) := by
  have ha : (processTable i t).2.availableFields = availableFieldsOf t := rfl
  have hm : (processTable i t).2.missingFields =
      requiredFields.filter (fun f => !((availableFieldsOf t).contains f)) := rfl
  constructor
  · intro f
    rw [ha]
    unfold availableFieldsOf
    rw [List.mem_filter]
    simp
  · intro f
    rw [hm, ha, List.mem_filter]
    simp

theorem c3_witness :
    findTypeField [[("Type", Value.str "User")], [("Type", Value.str "Group")]] =
        some "Type" ∧
    filteredRows
        ⟨"f.csv", [[("Type", Value.str "User")], [("Type", Value.str "Group")]],
          ["Type"]⟩ =
      [[("Type", Value.str "User")]] := by
  refine ⟨by decide, ?_⟩
  rw [(c3_type_filter
    ⟨"f.csv", [[("Type", Value.str "User")], [("Type", Value.str "Group")]],
      ["Type"]⟩ "Type" (by decide)).1]
  decide

theorem c4_witness :
    filteredRows ⟨"b.csv", [[("Name", Value.str "x")]], ["Name"]⟩ =
      [[("Name", Value.str "x")]] ∧
    (processTable 0 ⟨"b.csv", [[("Name", Value.str "x")]], ["Name"]⟩).2.hasTypeField
      = false := by
  have h := c4_no_type_column 0 ⟨"b.csv", [[("Name", Value.str "x")]], ["Name"]⟩
    (by decide) (by decide)
  exact ⟨h.1, h.2.2⟩

theorem c5_witness :
    jsGet (extractRecord "a.csv" 0 [("nAME", Value.str "v")]) "Name" =
      some (Value.str "v") := by
  rw [((c5_extracted_record_shape "a.csv" 0 [("nAME", Value.str "v")]).2 "Name"
    (by decide)).1]
  decide

theorem c6_witness :
    "Name" ∈ (processTable 0
      ⟨"g.csv", [[("name", Value.str "z")]], ["name"]⟩).2.availableFields :=
  ((c6_found_fields_from_first_row 0
      ⟨"g.csv", [[("name", Value.str "z")]], ["name"]⟩).1 "Name").mpr (by decide)

theorem foldl_add_map {α : Type _} (f : α → Nat) :
    ∀ (l : List α) (a : Nat), l.foldl (fun s x => s + f x) a = a + (l.map f).sum
  | [], a => by simp
  | x :: xs, a => by
    simp only [List.foldl_cons, List.map_cons, List.sum_cons]
    rw [foldl_add_map f xs (a + f x)]
    omega

/-- C8: in every finalized run summary, `duplicateCount` is the sum of the
member counts of the emitted duplicate groups and `duplicateGroups` is the
number of emitted groups. -/
theorem c8_summary_counts (tables : List ParsedTable) :
    (processBatch tables).summary.duplicateCount =
      ((processBatch tables).duplicateGroups.map (fun g => g.records.length)).sum ∧
    (processBatch tables).summary.duplicateGroups =
      (processBatch tables).duplicateGroups.length := by
  have h1 : (processBatch tables).summary.duplicateCount =
      ((processBatch tables).duplicateGroups).foldl
        (fun s g => s + g.records.length) 0 := rfl
  refine ⟨?_, rfl⟩
  rw [h1, foldl_add_map]
  omega

/-! ## Name-map characterization -/

theorem mapFst_insertMember (m : NameMap) (k : String) (mem : Member) :
    (insertMember m k mem).map Prod.fst =
      if k ∈ m.map Prod.fst then m.map Prod.fst else m.map Prod.fst ++ [k] := by
  induction m with
  | nil => simp [insertMember]
  | cons p rest ih =>
    obtain ⟨k', ms⟩ := p
    by_cases hk : k' = k
    · subst hk
      simp [insertMember]
    · have hk2 : ¬ k = k' := fun h => hk h.symm
      simp only [insertMember, if_neg hk, List.map_cons, List.mem_cons, hk2,
        false_or, ih]
      by_cases hm : k ∈ rest.map Prod.fst
      · simp [hm]
      · simp [hm]

theorem assocGet_insertMember (m : NameMap) (k : String) (mem : Member)
    (k' : String) :
    assocGet (insertMember m k mem) k' =
      if k' = k then assocGet m k' ++ [mem] else assocGet m k' := by
  induction m with
  | nil =>
    by_cases h : k' = k
    · subst h
      simp [insertMember, assocGet]
    · have h2 : ¬ k = k' := fun e => h e.symm
      simp [insertMember, assocGet, h, h2]
  | cons p rest ih =>
    obtain ⟨k0, ms⟩ := p
    by_cases h0 : k0 = k
    · subst h0
      by_cases h1 : k0 = k'
      · subst h1
        simp [insertMember, assocGet]
      · have h2 : ¬ k' = k0 := fun e => h1 e.symm
        simp [insertMember, assocGet, h1, h2]
    · by_cases h1 : k0 = k'
      · subst h1
        simp [insertMember, assocGet, h0]
      · simp [insertMember, assocGet, h0, h1, ih]

theorem mapFst_buildFrom (data : List Row) :
    ∀ (m : NameMap) (i : Nat),
      (buildFrom m i data).map Prod.fst =
        m.map Prod.fst ++
          dedupFirst (m.map Prod.fst) ((data.filter eligible).map recKey) := by
  induction data with
  | nil =>
    intro m i
    simp [buildFrom, dedupFirst]
  | cons r rest ih =>
    intro m i
    by_cases he : eligible r
    · rw [buildFrom, if_pos he, ih, mapFst_insertMember]
      rw [List.filter_cons, if_pos he, List.map_cons, dedupFirst]
      by_cases hm : recKey r ∈ m.map Prod.fst
      · rw [if_pos hm, if_pos hm]
      · rw [if_neg hm, if_neg hm, List.append_assoc]
        rfl
    · rw [buildFrom, if_neg he, ih]
      rw [List.filter_cons, if_neg he]

theorem assocGet_buildFrom (data : List Row) :
    ∀ (m : NameMap) (i : Nat) (k : String),
      assocGet (buildFrom m i data) k = assocGet m k ++ canonicalFrom i data k := by
  induction data with
  | nil =>
    intro m i k
    simp [buildFrom, canonicalFrom]
  | cons r rest ih =>
    intro m i k
    by_cases he : eligible r
    · rw [buildFrom, if_pos he, ih, assocGet_insertMember, canonicalFrom]
      by_cases hk : k = recKey r
      · rw [if_pos hk]
        have hcond : (eligible r && (recKey r == k)) = true := by
          rw [he, hk]
          simp
        rw [if_pos hcond, List.append_assoc]
      · rw [if_neg hk]
        have hcond : (eligible r && (recKey r == k)) = false := by
          rw [he]
          simp
          exact fun e => hk e.symm
        rw [if_neg (by simp [hcond])]
        simp
    · rw [buildFrom, if_neg he, ih, canonicalFrom]
      have he2 : eligible r = false := by
        revert he
        cases eligible r <;> simp
      rw [he2, Bool.false_and]
      simp

theorem not_mem_seen_of_mem_dedupFirst :
    ∀ {l : List String} {seen : List String} {k : String},
      k ∈ dedupFirst seen l → k ∉ seen := by
  intro l
  induction l with
  | nil =>
    intro seen k h
    simp [dedupFirst] at h
  | cons x xs ih =>
    intro seen k h
    rw [dedupFirst] at h
    by_cases hx : x ∈ seen
    · rw [if_pos hx] at h
      exact ih h
    · rw [if_neg hx] at h
      rcases List.mem_cons.mp h with rfl | h2
      · exact hx
      · intro hk
        exact ih h2 (List.mem_append_left _ hk)

theorem nodup_dedupFirst :
    ∀ (l : List String) (seen : List String), (dedupFirst seen l).Nodup := by
  intro l
  induction l with
  | nil =>
    intro seen
    simp [dedupFirst]
  | cons x xs ih =>
    intro seen
    rw [dedupFirst]
    by_cases hx : x ∈ seen
    · rw [if_pos hx]
      exact ih seen
    · rw [if_neg hx]
      refine List.Nodup.cons ?_ (ih (seen ++ [x]))
      intro hmem
      exact not_mem_seen_of_mem_dedupFirst hmem
        (List.mem_append_right _ (List.mem_singleton_self x))

theorem assocGet_of_mem :
    ∀ {m : NameMap}, (m.map Prod.fst).Nodup →
      ∀ {p : String × List Member}, p ∈ m → assocGet m p.1 = p.2 := by
  intro m
  induction m with
  | nil =>
    intro _ p hp
    simp at hp
  | cons q rest ih =>
    intro hnd p hp
    obtain ⟨k0, ms⟩ := q
    rw [List.map_cons, List.nodup_cons] at hnd
    rcases List.mem_cons.mp hp with rfl | h2
    · simp [assocGet]
    · have hne : ¬ k0 = p.1 := by
        intro he
        apply hnd.1
        rw [he]
        exact List.mem_map.mpr ⟨p, h2, rfl⟩
      rw [assocGet, if_neg hne]
      exact ih hnd.2 h2

theorem nodup_mapFst_buildNameMap (data : List Row) :
    ((buildNameMap data).map Prod.fst).Nodup := by
  unfold buildNameMap
  rw [mapFst_buildFrom]
  simpa using nodup_dedupFirst _ _

theorem mem_canonicalFrom :
    ∀ {l : List Row} {i : Nat} {k : String} {m : Member},
      m ∈ canonicalFrom i l k →
        eligible m.record = true ∧ recKey m.record = k ∧
        ∃ j, ∃ hj : j < l.length, m.idx = i + j ∧ m.record = l.get ⟨j, hj⟩ := by
  intro l
  induction l with
  | nil =>
    intro i k m h
    simp [canonicalFrom] at h
  | cons r rest ih =>
    intro i k m h
    rw [canonicalFrom] at h
    rcases List.mem_append.mp h with h1 | h2
    · by_cases hc : (eligible r && (recKey r == k)) = true
      · rw [if_pos hc] at h1
        rcases List.mem_singleton.mp h1 with rfl
        obtain ⟨he, hk⟩ := (Bool.and_eq_true _ _).mp hc
        refine ⟨he, by simpa using hk, 0, by simp, by simp, rfl⟩
      · rw [if_neg hc] at h1
        simp at h1
    · obtain ⟨he, hk, j, hj, hidx, hrec⟩ := ih h2
      refine ⟨he, hk, j + 1, by simpa using hj, by omega, ?_⟩
      simpa using hrec

theorem mem_findDuplicates {data : List Row} {g : DupGroup}
    (hg : g ∈ findDuplicates data) :
    1 < g.records.length ∧
    g.records = canonicalMembers data g.duplicateValue ∧
    g.originalName = g.records.head?.bind (fun mem => jsGet mem.record "Name") := by
  unfold findDuplicates at hg
  split at hg
  · rw [List.mem_filterMap] at hg
    obtain ⟨kv, hkv, hF⟩ := hg
    by_cases hlen : 1 < kv.2.length
    · rw [if_pos hlen] at hF
      have hget : assocGet (buildNameMap data) kv.1 = kv.2 :=
        assocGet_of_mem (nodup_mapFst_buildNameMap data) hkv
      have hcanon : assocGet (buildNameMap data) kv.1 =
          canonicalFrom 0 data kv.1 := by
        unfold buildNameMap
        rw [assocGet_buildFrom]
        rfl
      cases hF
      refine ⟨hlen, ?_, rfl⟩
      show kv.2 = canonicalMembers data kv.1
      rw [← hget, hcanon]
      rfl
    · rw [if_neg hlen] at hF
      exact absurd hF (by simp)
  · simp at hg

theorem filterMap_congr_mem {α β : Type _} {f g : α → Option β} :
    ∀ {l : List α}, (∀ a ∈ l, f a = g a) → l.filterMap f = l.filterMap g := by
  intro l
  induction l with
  | nil => intro _; rfl
  | cons x xs ih =>
    intro h
    rw [List.filterMap_cons, List.filterMap_cons, h x (List.mem_cons_self x xs),
      ih (fun a ha => h a (List.mem_cons_of_mem x ha))]

theorem filterMap_ite {α β : Type _} (p : α → Prop) [DecidablePred p]
    (f : α → β) :
    ∀ l : List α,
      l.filterMap (fun x => if p x then some (f x) else none) =
        (l.filter (fun x => decide (p x))).map f := by
  intro l
  induction l with
  | nil => rfl
  | cons x xs ih =>
    rw [List.filterMap_cons, List.filter_cons]
    by_cases h : p x
    · rw [if_pos h, decide_eq_true h, if_pos rfl, List.map_cons, ih]
    · rw [if_neg h, decide_eq_false h, ih]
      simp

theorem filter_eligible_eq_nil {data : List Row}
    (h : (data.any fun r => jsTruthy (jsGet r "Name")) = false) :
    data.filter eligible = [] := by
  rw [List.filter_eq_nil_iff]
  intro r hr
  have h2 : jsTruthy (jsGet r "Name") = false := by
    have := List.any_eq_false.mp h r hr
    simpa using this
  simp [eligible, h2]

theorem map_dupValue (data : List Row) :
    (findDuplicates data).map (fun g => g.duplicateValue) =
      (firstSeenKeys data).filter
        (fun k => decide (2 ≤ (canonicalMembers data k).length)) := by
  unfold findDuplicates
  split
  · have hkeys : (buildNameMap data).map Prod.fst = firstSeenKeys data := by
      unfold buildNameMap firstSeenKeys
      rw [mapFst_buildFrom]
      simp
    rw [List.map_filterMap]
    have hsnd : ∀ kv ∈ buildNameMap data, kv.2 = canonicalMembers data kv.1 := by
      intro kv hkv
      have hget := assocGet_of_mem (nodup_mapFst_buildNameMap data) hkv
      have hcanon : assocGet (buildNameMap data) kv.1 =
          canonicalFrom 0 data kv.1 := by
        unfold buildNameMap
        rw [assocGet_buildFrom]
        rfl
      rw [← hget, hcanon]
      rfl
    have hstep : ∀ kv ∈ buildNameMap data,
        (if 1 < kv.2.length then
            some { duplicateValue := kv.1, records := kv.2,
                   originalName := kv.2.head?.bind
                     (fun mem => jsGet mem.record "Name") }
          else (none : Option DupGroup)).map (fun g => g.duplicateValue) =
        (fun kv : String × List Member =>
          if 1 < kv.2.length then some kv.1 else none) kv := by
      intro kv _
      by_cases hl : 1 < kv.2.length
      · simp [hl]
      · simp [hl]
    rw [filterMap_congr_mem hstep]
    rw [filterMap_ite (fun kv : String × List Member => 1 < kv.2.length) Prod.fst]
    rw [List.filter_congr (q := fun kv : String × List Member =>
      decide (2 ≤ (canonicalMembers data kv.1).length)) ?_]
    · rw [← hkeys, List.filter_map]
      rfl
    · intro kv hkv
      rw [hsnd kv hkv]
      rfl
  · rename_i hguard
    have hfalse : (data.any fun r => jsTruthy (jsGet r "Name")) = false := by
      revert hguard
      cases data.any fun r => jsTruthy (jsGet r "Name") <;> simp
    have hnil : data.filter eligible = [] := filter_eligible_eq_nil hfalse
    unfold firstSeenKeys
    rw [hnil]
    rfl

theorem self_mem_canonicalFrom :
    ∀ {l : List Row} {i j : Nat} (hj : j < l.length),
      eligible (l.get ⟨j, hj⟩) = true →
      (⟨l.get ⟨j, hj⟩, i + j⟩ : Member) ∈
        canonicalFrom i l (recKey (l.get ⟨j, hj⟩)) := by
  intro l
  induction l with
  | nil =>
    intro i j hj
    simp at hj
  | cons r rest ih =>
    intro i j hj he
    rw [canonicalFrom]
    match j with
    | 0 =>
      apply List.mem_append_left
      have he2 : eligible r = true := he
      simp [he2]
    | j' + 1 =>
      apply List.mem_append_right
      have hj2 : j' < rest.length := by simpa using hj
      have hrec := ih (i := i + 1) hj2 (by simpa using he)
      have harith : i + 1 + j' = i + (j' + 1) := by omega
      rw [harith] at hrec
      simpa using hrec

/-- C1: every member of an emitted duplicate group has a truthy identity
value whose string form is neither empty nor whitespace-only (so records
with empty or whitespace-only identity values appear in no group), and
the group's key is the member's identity string with surrounding
whitespace trimmed and then lowercased; conversely every record with a
truthy, non-whitespace-only identity value is grouped under exactly that
key. -/
theorem c1_normalized_key (data : List Row) :
    (∀ g ∈ findDuplicates data, ∀ m ∈ g.records,
      jsTruthy (jsGet m.record "Name") = true ∧
      jsTrim (jsString (jsGet m.record "Name")) ≠ "" ∧
      g.duplicateValue = jsToLower (jsTrim (jsString (jsGet m.record "Name")))) ∧
    (∀ j, ∀ hj : j < data.length,
      jsTruthy (jsGet (data.get ⟨j, hj⟩) "Name") = true →
      jsTrim (jsString (jsGet (data.get ⟨j, hj⟩) "Name")) ≠ "" →
      (⟨data.get ⟨j, hj⟩, j⟩ : Member) ∈
        canonicalMembers data
          (jsToLower (jsTrim (jsString (jsGet (data.get ⟨j, hj⟩) "Name"))))) := by
  constructor
  · intro g hg m hm
    have hrec := (mem_findDuplicates hg).2.1
    rw [hrec] at hm
    obtain ⟨he, hk, -⟩ := mem_canonicalFrom hm
    obtain ⟨ht, hb⟩ := (Bool.and_eq_true _ _).mp he
    refine ⟨ht, by simpa using hb, ?_⟩
    rw [← hk]
    unfold recKey
    rw [jsTrim_jsToLower]
  · intro j hj ht hw
    have he : eligible (data.get ⟨j, hj⟩) = true := by
      unfold eligible
      rw [ht, Bool.true_and]
      simpa using hw
    have hkey : jsToLower (jsTrim (jsString (jsGet (data.get ⟨j, hj⟩) "Name"))) =
        recKey (data.get ⟨j, hj⟩) := by
      unfold recKey
      rw [jsTrim_jsToLower]
    rw [hkey]
    have := self_mem_canonicalFrom (i := 0) hj he
    simpa using this

theorem c1_witness :
    jsTruthy (jsGet [("Name", Value.str "Alice")] "Name") = true ∧
    jsTrim (jsString (jsGet [("Name", Value.str "Alice")] "Name")) ≠ "" ∧
    (⟨"alice",
      [⟨[("Name", Value.str "Alice")], 0⟩, ⟨[("Name", Value.str " alice ")], 1⟩],
      some (Value.str "Alice")⟩ : DupGroup).duplicateValue =
      jsToLower (jsTrim (jsString (jsGet [("Name", Value.str "Alice")] "Name"))) :=
  (c1_normalized_key
    [[("Name", Value.str "Alice")], [("Name", Value.str " alice ")]]).1
    ⟨"alice",
      [⟨[("Name", Value.str "Alice")], 0⟩, ⟨[("Name", Value.str " alice ")], 1⟩],
      some (Value.str "Alice")⟩
    (by decide)
    ⟨[("Name", Value.str "Alice")], 0⟩
    (by decide)

/-- C2: every emitted duplicate group has at least two members; the group
keys appear in first-seen insertion order of the normalized keys of the
eligible records; within a group the members are exactly the eligible
records carrying that key, in original record order and with their
original indices; and each group's representative value is the
unnormalized identity value of its first member. -/
theorem c2_group_invariants (data : List Row) :
    (∀ g ∈ findDuplicates data, 2 ≤ g.records.length) ∧
    ((findDuplicates data).map (fun g => g.duplicateValue) =
      (firstSeenKeys data).filter
        (fun k => decide (2 ≤ (canonicalMembers data k).length))) ∧
    (∀ g ∈ findDuplicates data,
       g.records = canonicalMembers data g.duplicateValue) ∧
    (∀ g ∈ findDuplicates data, ∀ mh, g.records.head? = some mh →
       g.originalName = jsGet mh.record "Name") := by
  refine ⟨?_, map_dupValue data, ?_, ?_⟩
  · intro g hg
    exact (mem_findDuplicates hg).1
  · intro g hg
    exact (mem_findDuplicates hg).2.1
  · intro g hg mh hmh
    rw [(mem_findDuplicates hg).2.2, hmh]
    rfl

theorem c2_witness :
    (findDuplicates [[("Name", Value.str "Bob")], [("Name", Value.str "BOB")]]).map
        (fun g => g.duplicateValue) = ["bob"] := by
  rw [(c2_group_invariants
    [[("Name", Value.str "Bob")], [("Name", Value.str "BOB")]]).2.1]
  decide

/-- C7: when no aggregated record has a truthy identity value, duplicate
detection returns the empty group list and the run summary's
`hasNameField` flag is false. -/
theorem c7_missing_identity_field (tables : List ParsedTable)
    (h : ∀ r ∈ aggFrom 0 tables, jsTruthy (jsGet r "Name") = false) :
    (processBatch tables).duplicateGroups = [] ∧
    (processBatch tables).summary.hasNameField = false := by
  have hany : ((aggFrom 0 tables).any fun r => jsTruthy (jsGet r "Name")) = false := by
    rw [List.any_eq_false]
    intro r hr
    simp [h r hr]
  constructor
  · show findDuplicates (aggFrom 0 tables) = []
    unfold findDuplicates
    rw [hany]
    simp
  · show hasNameFieldOf (aggFrom 0 tables) = false
    unfold hasNameFieldOf
    rw [hany, Bool.and_false]

theorem c7_witness :
    (processBatch [⟨"a.csv", [[("Name", Value.str "")]], ["Name"]⟩]).duplicateGroups
        = [] ∧
    (processBatch [⟨"a.csv", [[("Name", Value.str "")]], ["Name"]⟩]).summary.hasNameField
        = false :=
  c7_missing_identity_field [⟨"a.csv", [[("Name", Value.str "")]], ["Name"]⟩]
    (by decide)

/-- C10: a record whose identity value is the number 0 or the boolean
false is excluded from duplicate grouping (no emitted group has a member
at its position) and leaves the `hasNameField` flag exactly as it would
be without the record, even though its canonical string form (`"0"` or
`"false"`) is non-empty and not whitespace-only. -/
theorem c10_falsy_scalar_identity (pre post : List Row) (r : Row)
    (h : jsGet r "Name" = some (Value.num 0) ∨
         jsGet r "Name" = some (Value.bool false)) :
    (∀ g ∈ findDuplicates (pre ++ r :: post), ∀ m ∈ g.records,
       m.idx ≠ pre.length) ∧
    hasNameFieldOf (pre ++ r :: post) = hasNameFieldOf (pre ++ post) ∧
    (jsString (jsGet r "Name") = "0" ∨ jsString (jsGet r "Name") = "false") ∧
    jsTrim (jsString (jsGet r "Name")) ≠ "" := by
  have htr : jsTruthy (jsGet r "Name") = false := by
    rcases h with h | h <;> rw [h] <;> rfl
  have hel : eligible r = false := by
    unfold eligible
    rw [htr, Bool.false_and]
  refine ⟨?_, ?_, ?_, ?_⟩
  · intro g hg m hm hidx
    have hrec := (mem_findDuplicates hg).2.1
    rw [hrec] at hm
    obtain ⟨he, -, j, hj, hmidx, hmrec⟩ := mem_canonicalFrom hm
    have hjp : j = pre.length := by omega
    subst hjp
    have hmr : m.record = r := by
      rw [hmrec, List.get_eq_getElem, List.getElem_append_right (Nat.le_refl _)]
      simp
    rw [hmr, hel] at he
    exact Bool.false_ne_true he
  · unfold hasNameFieldOf
    have hany : (pre ++ r :: post).any (fun rec => jsTruthy (jsGet rec "Name")) =
        (pre ++ post).any (fun rec => jsTruthy (jsGet rec "Name")) := by
      simp [htr]
    rw [hany, decide_eq_true (show 0 < (pre ++ r :: post).length by simp)]
    rcases hpp : pre ++ post with _ | ⟨x, xs⟩
    · simp
    · rw [decide_eq_true (show 0 < (x :: xs).length by simp)]
  · rcases h with h | h
    · rw [h]
      left
      decide
    · rw [h]
      right
      decide
  · rcases h with h | h <;> rw [h] <;> decide

theorem c10_witness :
    (∀ g ∈ findDuplicates ([] ++ [("Name", Value.num 0)] :: []),
       ∀ m ∈ g.records, m.idx ≠ List.length ([] : List Row)) ∧
    hasNameFieldOf ([] ++ [("Name", Value.num 0)] :: []) =
      hasNameFieldOf ([] ++ []) ∧
    (jsString (jsGet [("Name", Value.num 0)] "Name") = "0" ∨
     jsString (jsGet [("Name", Value.num 0)] "Name") = "false") ∧
    jsTrim (jsString (jsGet [("Name", Value.num 0)] "Name")) ≠ "" :=
  c10_falsy_scalar_identity [] [] [("Name", Value.num 0)] (Or.inl (by decide))

end CsvUserCombiner
